import Mathlib

/-!
Shallow embedding of the go-fiscobcos client core.

Source files embedded here:
* `rpc/channel.go` — channel frame-type constants (`ChannelPack`), the
  correlation-sequence generators `GenMsgSeq` and `GenZeroSeq`.
* `core/types.go` — the block `Header`, its identity hash `Header.Hash`
  (legacy Keccak-256 of the RLP encoding, via `rlpHash`), and the 8-byte
  `BlockNonce` with its big-endian conversions `EncodeNonce` and
  `BlockNonce.Uint64`.

Bytes are modelled as `Nat` values (< 256 where well-formedness matters),
byte sequences as `List Nat`, machine integers as `Nat` with explicit
bounds, and fallible operations as `Except String`.
-/

/-! ## ContentHasher: Keccak-256 as used by `rlpHash` (`sha3.NewLegacyKeccak256`)

`core/types.go` hashes with `golang.org/x/crypto/sha3.NewLegacyKeccak256`,
the sponge over Keccak-f[1600] with rate 136 and the original multi-rate
padding whose domain-separation byte is `0x01` (NIST SHA3-256 instead uses
`0x06`).  The permutation below follows the x/crypto implementation: state
is 25 lanes of 64 bits, absorbed little-endian. -/

/-- Rotate a 64-bit lane left by `n` bits. -/
def rotl64 (x n : Nat) : Nat :=
  ((x <<< n) ||| (x >>> (64 - n))) % (2 ^ 64)

/-- Round constants of Keccak-f[1600], written in decimal. -/
def keccakRC : List Nat :=
  [1, 32898,
   9223372036854808714, 9223372039002292224,
   32907, 2147483649,
   9223372039002292353, 9223372036854808585,
   138, 136,
   2147516425, 2147483658,
   2147516555, 9223372036854775947,
   9223372036854808713, 9223372036854808579,
   9223372036854808578, 9223372036854775936,
   32778, 9223372039002259466,
   9223372039002292353, 9223372036854808704,
   2147483649, 9223372039002292232]

/-- Rotation offset of the rho step for the lane at position `x + 5*y`. -/
def rhoOffset : Nat → Nat
  | 1 => 1
  | 2 => 62
  | 3 => 28
  | 4 => 27
  | 5 => 36
  | 6 => 44
  | 7 => 6
  | 8 => 55
  | 9 => 20
  | 10 => 3
  | 11 => 10
  | 12 => 43
  | 13 => 25
  | 14 => 39
  | 15 => 41
  | 16 => 45
  | 17 => 15
  | 18 => 21
  | 19 => 8
  | 20 => 18
  | 21 => 2
  | 22 => 61
  | 23 => 56
  | 24 => 14
  | _ => 0

/-- Rotation offsets of the rho step, indexed by lane position. -/
def rhoOffsets : List Nat := (List.range 25).map rhoOffset

/-- Theta step of Keccak-f[1600]. -/
def theta (A : List Nat) : List Nat :=
  let C := (List.range 5).map fun x =>
    A.getD x 0 ^^^ A.getD (x + 5) 0 ^^^ A.getD (x + 10) 0 ^^^ A.getD (x + 15) 0 ^^^ A.getD (x + 20) 0
  let D := (List.range 5).map fun x =>
    C.getD ((x + 4) % 5) 0 ^^^ rotl64 (C.getD ((x + 1) % 5) 0) 1
  (List.range 25).map fun i => A.getD i 0 ^^^ D.getD (i % 5) 0

/-- Combined rho and pi steps of Keccak-f[1600]. -/
def rhoPi (A : List Nat) : List Nat :=
  (List.range 25).foldl (fun B i =>
    let x := i % 5
    let y := i / 5
    B.set (y + 5 * ((2 * x + 3 * y) % 5)) (rotl64 (A.getD i 0) (rhoOffsets.getD i 0)))
    (List.replicate 25 0)

/-- Chi step of Keccak-f[1600]; complement is taken within 64 bits. -/
def chi (B : List Nat) : List Nat :=
  (List.range 25).map fun i =>
    let x := i % 5
    let y := i / 5
    B.getD i 0 ^^^ ((B.getD ((x + 1) % 5 + 5 * y) 0 ^^^ (2 ^ 64 - 1)) &&& B.getD ((x + 2) % 5 + 5 * y) 0)

/-- One round of Keccak-f[1600]: theta, rho, pi, chi, iota. -/
def keccakRound (A : List Nat) (rc : Nat) : List Nat :=
  let c := chi (rhoPi (theta A))
  c.set 0 (c.getD 0 0 ^^^ rc)

/-- The full 24-round Keccak-f[1600] permutation. -/
def keccakF (A : List Nat) : List Nat :=
  keccakRC.foldl keccakRound A

/-- Interpret up to eight bytes as one little-endian 64-bit lane. -/
def bytesToLane (bs : List Nat) : Nat :=
  bs.foldr (fun b acc => b + 256 * acc) 0

/-- XOR one 136-byte rate block into the state and permute. -/
def absorbBlock (st block : List Nat) : List Nat :=
  keccakF ((List.range 25).map fun i =>
    if i < 17 then st.getD i 0 ^^^ bytesToLane ((block.drop (8 * i)).take 8) else st.getD i 0)

/-- Absorb a padded message (its length a multiple of 136) block by block. -/
def absorb (st msg : List Nat) : List Nat :=
  (List.range (msg.length / 136)).foldl
    (fun s k => absorbBlock s ((msg.drop (136 * k)).take 136)) st

/-- Multi-rate padding at rate 136 with domain-separation byte `ds`:
append `ds`, zero-fill, and set the top bit of the final byte. -/
def padMsg (ds : Nat) (msg : List Nat) : List Nat :=
  let q := 136 - msg.length % 136
  if q = 1 then msg ++ [ds + 0x80]
  else msg ++ ds :: List.replicate (q - 2) 0 ++ [0x80]

/-- Keccak sponge at rate 136 with domain-separation byte `ds`,
squeezing a 32-byte digest. -/
def keccakHash (ds : Nat) (msg : List Nat) : List Nat :=
  let st := absorb (List.replicate 25 0) (padMsg ds msg)
  (List.range 32).map fun i => (st.getD (i / 8) 0 >>> (8 * (i % 8))) % 256

/-- Legacy (pre-NIST) Keccak-256: domain-separation byte `0x01`.
This is `sha3.NewLegacyKeccak256` as called by `rlpHash`. -/
def keccak256 (msg : List Nat) : List Nat := keccakHash 0x01 msg

/-- NIST SHA3-256 differs from the legacy hash only in the
domain-separation byte `0x06`; kept for comparison. -/
def sha3Nist256 (msg : List Nat) : List Nat := keccakHash 0x06 msg

/-! ## CanonicalEncoder (RLP)

Modelled from the spec: the `rlp` package
(`github.com/chislab/go-fiscobcos/rlp`) is not among the provided source
files; the encoder below follows §4.1 of the spec — integers in minimal
big-endian form with zero as the empty byte string, byte strings with a
length prefix, lists as length-prefixed concatenations — using the RLP
prefix scheme the spec names (single byte below `0x80` stands alone;
short strings get `0x80 + length`; long strings `0xb7 +` the byte length
of the big-endian length; lists the same with `0xc0`/`0xf7`). -/

/-- Fuel-driven big-endian digit extraction; any fuel at least the value
itself is enough, the fuel only makes the recursion structural. -/
def beBytesAux : Nat → Nat → List Nat
  | 0, _ => []
  | fuel + 1, n => if n = 0 then [] else beBytesAux fuel (n / 256) ++ [n % 256]

/-- Minimal big-endian byte representation of a natural number;
zero encodes as the empty byte string. -/
def beBytes (n : Nat) : List Nat := beBytesAux n n

/-- Big-endian value of a byte sequence. -/
def beVal (l : List Nat) : Nat :=
  l.foldl (fun acc b => acc * 256 + b) 0

/-- RLP encoding of a byte string. -/
def rlpStr (s : List Nat) : List Nat :=
  if s.length = 1 ∧ s.headD 0 < 0x80 then s
  else if s.length < 56 then (0x80 + s.length) :: s
  else (0xb7 + (beBytes s.length).length) :: beBytes s.length ++ s

/-- RLP encoding of a non-negative integer: the string encoding of its
minimal big-endian bytes. -/
def rlpInt (n : Nat) : List Nat := rlpStr (beBytes n)

/-- RLP encoding of a list given its already-encoded payload. -/
def rlpList (payload : List Nat) : List Nat :=
  if payload.length < 56 then (0xc0 + payload.length) :: payload
  else (0xf7 + (beBytes payload.length).length) :: beBytes payload.length ++ payload

/-- Concatenation of the RLP string encodings of a sequence of field
payloads. -/
def encCat : List (List Nat) → List Nat
  | [] => []
  | s :: t => rlpStr s ++ encCat t

/-! ## Header (`core/types.go`) -/

/-- A block header of the FiscoBcos chain: the fifteen fields of
`types.Header`, in declaration order.  Hashes, the address, the bloom
filter, extra data and the nonce are byte sequences; `Difficulty` and
`Number` are arbitrary-precision non-negative integers (`*big.Int`);
`GasLimit`, `GasUsed` and `Time` are 64-bit unsigned integers. -/
structure Header where
  ParentHash : List Nat
  UncleHash : List Nat
  Coinbase : List Nat
  Root : List Nat
  TxHash : List Nat
  ReceiptHash : List Nat
  Bloom : List Nat
  Difficulty : Nat
  Number : Nat
  GasLimit : Nat
  GasUsed : Nat
  Time : Nat
  Extra : List Nat
  MixDigest : List Nat
  RandomId : List Nat

/-- The fifteen field payloads of a header, in declaration order: byte
fields stand for themselves, integer fields contribute their minimal
big-endian bytes. -/
def headerFields (h : Header) : List (List Nat) :=
  [h.ParentHash, h.UncleHash, h.Coinbase, h.Root, h.TxHash, h.ReceiptHash,
   h.Bloom, beBytes h.Difficulty, beBytes h.Number, beBytes h.GasLimit,
   beBytes h.GasUsed, beBytes h.Time, h.Extra, h.MixDigest, h.RandomId]

/-- RLP encoding of a header: the list encoding of its fifteen
field encodings in declaration order (`rlp.Encode` on `*Header`). -/
def headerRLP (h : Header) : List Nat :=
  rlpList (encCat (headerFields h))

/-- Embeds `rlpHash` of `core/types.go` at the `Header` argument:
legacy Keccak-256 of the RLP encoding. -/
def rlpHash (h : Header) : List Nat := keccak256 (headerRLP h)

/-- Embeds `Header.Hash` of `core/types.go`: the block hash of a header
is `rlpHash` of the header. -/
def Header.Hash (h : Header) : List Nat := rlpHash h

/-- The all-zero header, used as a concrete evaluation point. -/
def zeroHeader : Header :=
  { ParentHash := List.replicate 32 0
    UncleHash := List.replicate 32 0
    Coinbase := List.replicate 20 0
    Root := List.replicate 32 0
    TxHash := List.replicate 32 0
    ReceiptHash := List.replicate 32 0
    Bloom := List.replicate 256 0
    Difficulty := 0
    Number := 0
    GasLimit := 0
    GasUsed := 0
    Time := 0
    Extra := []
    MixDigest := List.replicate 32 0
    RandomId := List.replicate 8 0 }

/-! ## RLP decoding helpers (for the injectivity proof) -/

/-- Parse one RLP string item from the front of a byte sequence,
returning the payload and the unconsumed tail. -/
def parseStr (bs : List Nat) : Option (List Nat × List Nat) :=
  match bs with
  | [] => none
  | b :: rest =>
    if b < 0x80 then some ([b], rest)
    else if b ≤ 0xb7 then some (rest.take (b - 0x80), rest.drop (b - 0x80))
    else some ((rest.drop (b - 0xb7)).take (beVal (rest.take (b - 0xb7))),
               (rest.drop (b - 0xb7)).drop (beVal (rest.take (b - 0xb7))))

/-- Parse an RLP list prefix from the front of a byte sequence,
returning the list payload and the unconsumed tail. -/
def parseLst (bs : List Nat) : Option (List Nat × List Nat) :=
  match bs with
  | [] => none
  | b :: rest =>
    if b < 0xc0 then none
    else if b ≤ 0xf7 then some (rest.take (b - 0xc0), rest.drop (b - 0xc0))
    else some ((rest.drop (b - 0xf7)).take (beVal (rest.take (b - 0xf7))),
               (rest.drop (b - 0xf7)).drop (beVal (rest.take (b - 0xf7))))

/-- Parse `k` consecutive RLP string items, returning their payloads and
the unconsumed tail. -/
def parseFields : Nat → List Nat → Option (List (List Nat) × List Nat)
  | 0, bs => some ([], bs)
  | k + 1, bs =>
    (parseStr bs).bind fun p => (parseFields k p.2).map fun q => (p.1 :: q.1, q.2)

/-! ## BlockNonce (`core/types.go`) -/

/-- Embeds `EncodeNonce`: `binary.BigEndian.PutUint64` of the integer
into the nonce's 8 bytes, most significant byte first. -/
def EncodeNonce (i : Nat) : List Nat :=
  [(i >>> 56) % 256, (i >>> 48) % 256, (i >>> 40) % 256, (i >>> 32) % 256,
   (i >>> 24) % 256, (i >>> 16) % 256, (i >>> 8) % 256, i % 256]

/-- Embeds `BlockNonce.Uint64`: `binary.BigEndian.Uint64` of the nonce's
8 bytes, the OR of each byte shifted into its big-endian position. -/
def BlockNonce.Uint64 (n : List Nat) : Nat :=
  n.getD 7 0 ||| n.getD 6 0 <<< 8 ||| n.getD 5 0 <<< 16 ||| n.getD 4 0 <<< 24 |||
  n.getD 3 0 <<< 32 ||| n.getD 2 0 <<< 40 ||| n.getD 1 0 <<< 48 ||| n.getD 0 0 <<< 56

/-! ## ChannelPack frame-type tags (`rpc/channel.go`) -/

/-- Tag of a plain RPC call request frame. -/
def TYPE_RPC : Nat := 0x12

/-- Tag of a heartbeat frame. -/
def TYPE_HEATBEAT : Nat := 0x13

/-- Tag of an AMOP (application messaging) request frame. -/
def TYPE_AMOP_REQ : Nat := 0x30

/-- Tag of an AMOP response frame. -/
def TYPE_AMOP_RESP : Nat := 0x31

/-- Tag of a topic report frame. -/
def TYPE_TOPIC_REPORT : Nat := 0x32

/-- Tag of a topic multicast frame. -/
def TYPE_TOPIC_MULTICAST : Nat := 0x35

/-- Tag of a transaction-committed notification frame. -/
def TYPE_TX_COMMITTED : Nat := 0x1000

/-- Tag of a transaction-block-number notification frame. -/
def TYPE_TX_BLOCKNUM : Nat := 0x1001

/-- The closed enumeration of channel frame kinds named by the
`ChannelPack` constants. -/
inductive ChannelFrameType where
  | rpc
  | heartbeat
  | amopReq
  | amopResp
  | topicReport
  | topicMulticast
  | txCommitted
  | txBlockNum
deriving DecidableEq

/-- Modelled from the spec: §4.5 requires a total, exhaustive decoder for
the closed `ChannelPack` enumeration (the repository's frame demultiplexer
is not among the provided source files); an unrecognized tag is a decode
error, never coerced to a known type. -/
def decodeFrameType (tag : Nat) : Except String ChannelFrameType :=
  if tag = TYPE_RPC then .ok .rpc
  else if tag = TYPE_HEATBEAT then .ok .heartbeat
  else if tag = TYPE_AMOP_REQ then .ok .amopReq
  else if tag = TYPE_AMOP_RESP then .ok .amopResp
  else if tag = TYPE_TOPIC_REPORT then .ok .topicReport
  else if tag = TYPE_TOPIC_MULTICAST then .ok .topicMulticast
  else if tag = TYPE_TX_COMMITTED then .ok .txCommitted
  else if tag = TYPE_TX_BLOCKNUM then .ok .txBlockNum
  else .error "unrecognized frame type"

/-! ## Sequence generation (`rpc/channel.go`)

`GenMsgSeq` builds a version-4 UUID (`uuid.New()` of `pborman/uuid`),
splits its dashed textual form on `-`, concatenates the pieces behind a
`0X` marker, upper-cases the whole string and hex-decodes it.
`hexutil.Decode` (`github.com/chislab/go-fiscobcos/common/hexutil`) is
not among the provided source files; it is modelled from the spec (§6:
the generator strips all textual formatting and yields 16 raw bytes) as
standard `0x`/`0X`-marked hexadecimal decoding. -/

/-- Lowercase hexadecimal digit character of a value below 16. -/
def hexChar (d : Nat) : Char :=
  if d < 10 then Char.ofNat (48 + d) else Char.ofNat (87 + d)

/-- Lowercase hexadecimal text of a byte sequence, two digits per byte. -/
def bytesToHex : List Nat → List Char
  | [] => []
  | b :: t => hexChar (b / 16) :: hexChar (b % 16) :: bytesToHex t

/-- The dashed textual form of a 16-byte UUID
(groups of 4, 2, 2, 2 and 6 bytes, as printed by `uuid.UUID.String`). -/
def uuidString (u : List Nat) : List Char :=
  bytesToHex (u.take 4) ++ '-' :: bytesToHex ((u.drop 4).take 2) ++
    '-' :: bytesToHex ((u.drop 6).take 2) ++ '-' :: bytesToHex ((u.drop 8).take 2) ++
    '-' :: bytesToHex (u.drop 10)

/-- A version-4 UUID built from 16 source bytes, as `uuid.NewRandom` of
`pborman/uuid` does: byte 6 keeps its low nibble and gets version `0x40`,
byte 8 keeps its low six bits and gets variant `0x80`. -/
def newRandomUUID (r : List Nat) : List Nat :=
  (r.set 6 (r.getD 6 0 % 16 + 0x40)).set 8 (r.getD 8 0 % 64 + 0x80)

/-- Go's `strings.Split` on the dash separator. -/
def splitDash : List Char → List (List Char)
  | [] => [[]]
  | c :: t =>
    if c = '-' then [] :: splitDash t
    else
      match splitDash t with
      | [] => [[c]]
      | h :: r => (c :: h) :: r

/-- ASCII upper-casing of one character (`strings.ToUpper` pointwise). -/
def toUpperChar (c : Char) : Char :=
  if 'a' ≤ c ∧ c ≤ 'z' then Char.ofNat (c.toNat - 32) else c

/-- Value of one hexadecimal digit character, upper or lower case. -/
def hexVal (c : Char) : Option Nat :=
  if '0' ≤ c ∧ c ≤ '9' then some (c.toNat - 48)
  else if 'a' ≤ c ∧ c ≤ 'f' then some (c.toNat - 87)
  else if 'A' ≤ c ∧ c ≤ 'F' then some (c.toNat - 55)
  else none

/-- Decode pairs of hexadecimal digit characters into bytes; an odd
length or a non-digit character fails. -/
def hexPairs : List Char → Option (List Nat)
  | [] => some []
  | [_] => none
  | a :: b :: t =>
    match hexVal a, hexVal b, hexPairs t with
    | some x, some y, some r => some ((16 * x + y) :: r)
    | _, _, _ => none

/-- Modelled from the spec: `hexutil.Decode` is not among the provided
source files; per §6 it turns `0x`- or `0X`-marked hexadecimal text into
raw bytes and rejects empty, unmarked or malformed input. -/
def hexDecode : List Char → Except String (List Nat)
  | [] => .error "empty hex string"
  | [_] => .error "hex string without 0x marker"
  | c0 :: c1 :: rest =>
    if c0 = '0' ∧ (c1 = 'x' ∨ c1 = 'X') then
      match hexPairs rest with
      | some bs => .ok bs
      | none => .error "invalid hex string"
    else .error "hex string without 0x marker"

/-- Embeds `GenMsgSeq` of `rpc/channel.go` over an explicit
unique-identifier source: `none` stands for a failing source and is
surfaced as an error; `some r` supplies the 16 random bytes from which
`uuid.New()` builds its version-4 UUID.  The dashed textual UUID is split
on `-`, concatenated behind `0X`, upper-cased and hex-decoded. -/
def GenMsgSeq (src : Option (List Nat)) : Except String (List Nat) :=
  match src with
  | none => .error "uuid generation failed"
  | some r =>
    let uid := uuidString (newRandomUUID r)
    let joined := '0' :: 'X' :: (splitDash uid).flatten
    hexDecode (joined.map toUpperChar)

/-- Embeds `GenZeroSeq` of `rpc/channel.go`: hex-decode the literal
`0x00000000000000000000000000000000`. -/
def GenZeroSeq : Except String (List Nat) :=
  hexDecode "0x00000000000000000000000000000000".data

/-! ## Properties of the minimal big-endian integer encoding -/

/-- The fuel of `beBytesAux` is irrelevant once it dominates the value. -/
theorem beBytesAux_congr : ∀ f1 f2 n, n ≤ f1 → n ≤ f2 → beBytesAux f1 n = beBytesAux f2 n := by
  intro f1
  induction f1 with
  | zero =>
    intro f2 n h1 h2
    have : n = 0 := by omega
    subst this
    cases f2 <;> simp [beBytesAux]
  | succ f ih =>
    intro f2 n h1 h2
    cases f2 with
    | zero =>
      have : n = 0 := by omega
      subst this
      simp [beBytesAux]
    | succ g =>
      by_cases hn : n = 0
      · subst hn; simp [beBytesAux]
      · have hd : n / 256 < n := Nat.div_lt_self (by omega) (by omega)
        simp only [beBytesAux, if_neg hn]
        rw [ih g (n / 256) (by omega) (by omega)]

/-- One-step unfolding of the minimal big-endian encoding. -/
theorem beBytes_eq (n : Nat) : beBytes n = if n = 0 then [] else beBytes (n / 256) ++ [n % 256] := by
  by_cases hn : n = 0
  · subst hn; simp [beBytes, beBytesAux]
  · rw [if_neg hn]
    obtain ⟨m, rfl⟩ : ∃ m, n = m + 1 := ⟨n - 1, by omega⟩
    have hd : (m + 1) / 256 < m + 1 := Nat.div_lt_self (by omega) (by omega)
    show beBytesAux (m + 1) (m + 1) = _
    simp only [beBytesAux, if_neg hn]
    rw [beBytesAux_congr m ((m + 1) / 256) ((m + 1) / 256) (by omega) (by omega)]
    rfl

/-- Appending one byte multiplies the big-endian value by 256 and adds it. -/
theorem beVal_snoc (l : List Nat) (b : Nat) : beVal (l ++ [b]) = beVal l * 256 + b := by
  simp [beVal, List.foldl_append]

/-- The big-endian value of the minimal encoding recovers the integer. -/
theorem beVal_beBytes (n : Nat) : beVal (beBytes n) = n := by
  induction n using Nat.strong_induction_on with
  | _ n ih =>
    rw [beBytes_eq]
    split
    · simp [beVal, *]
    · rename_i h
      rw [beVal_snoc, ih (n / 256) (Nat.div_lt_self (Nat.pos_of_ne_zero h) (by omega))]
      omega

/-- The minimal encoding is injective. -/
theorem beBytes_inj {m n : Nat} (h : beBytes m = beBytes n) : m = n := by
  rw [← beVal_beBytes m, ← beVal_beBytes n, h]

/-- A positive integer has a nonempty minimal encoding. -/
theorem beBytes_ne_nil {n : Nat} (h : 0 < n) : beBytes n ≠ [] := by
  rw [beBytes_eq]
  split
  · omega
  · simp

/-- The minimal encoding of a positive integer has no leading zero byte. -/
theorem beBytes_head_ne_zero {n : Nat} (h : 0 < n) : (beBytes n).headD 0 ≠ 0 := by
  induction n using Nat.strong_induction_on with
  | _ n ih =>
    rw [beBytes_eq]
    split
    · omega
    · rename_i hnz
      by_cases hsmall : n < 256
      · have h0 : n / 256 = 0 := Nat.div_eq_of_lt hsmall
        rw [h0]
        rw [beBytes_eq]
        simp
        omega
      · have hpos : 0 < n / 256 := Nat.div_pos (by omega) (by omega)
        have hne : beBytes (n / 256) ≠ [] := beBytes_ne_nil hpos
        have hih := ih (n / 256) (Nat.div_lt_self (by omega) (by omega)) hpos
        cases hl : beBytes (n / 256) with
        | nil => exact absurd hl hne
        | cons a t =>
          rw [hl] at hih
          simpa using hih

/-- C3: in the canonical encoding every non-negative integer field is its
minimal big-endian byte representation: zero is the empty byte string (so
`rlpInt 0` is the empty-string item `0x80`, not a zero byte), the value
round-trips, and a positive integer's first byte is never zero. -/
theorem rlp_int_minimal_bigendian :
    beBytes 0 = [] ∧ rlpInt 0 = [0x80] ∧ (∀ n : Nat, beVal (beBytes n) = n) ∧
    ∀ n : Nat, 0 < n → (beBytes n).headD 0 ≠ 0 :=
  ⟨by decide, by decide, beVal_beBytes, fun _ h => beBytes_head_ne_zero h⟩

/-- Witness for C3 at the concrete integer 435. -/
theorem rlp_int_minimal_bigendian_witness :
    beVal (beBytes 435) = 435 ∧ (0 < 435 ∧ (beBytes 435).headD 0 ≠ 0) :=
  ⟨rlp_int_minimal_bigendian.2.2.1 435,
   by decide, rlp_int_minimal_bigendian.2.2.2 435 (by decide)⟩

/-- C5: the eight `ChannelPack` constants carry exactly the documented tag
values and are pairwise distinct. -/
theorem channelPack_tag_values :
    TYPE_RPC = 0x12 ∧ TYPE_HEATBEAT = 0x13 ∧ TYPE_AMOP_REQ = 0x30 ∧
    TYPE_AMOP_RESP = 0x31 ∧ TYPE_TOPIC_REPORT = 0x32 ∧ TYPE_TOPIC_MULTICAST = 0x35 ∧
    TYPE_TX_COMMITTED = 0x1000 ∧ TYPE_TX_BLOCKNUM = 0x1001 ∧
    [TYPE_RPC, TYPE_HEATBEAT, TYPE_AMOP_REQ, TYPE_AMOP_RESP, TYPE_TOPIC_REPORT,
     TYPE_TOPIC_MULTICAST, TYPE_TX_COMMITTED, TYPE_TX_BLOCKNUM].Nodup := by
  refine ⟨rfl, rfl, rfl, rfl, rfl, rfl, rfl, rfl, ?_⟩
  decide

/-- C8: `GenZeroSeq` returns exactly 16 zero bytes with no error; being a
constant, repeated evaluations yield the identical value. -/
theorem genZeroSeq_constant : GenZeroSeq = .ok (List.replicate 16 0) := by
  rfl

/-- C9: frame-type decoding is exhaustive over the closed enumeration:
`0x13` decodes to heartbeat, `0x1001` to the transaction-block-number
notification, and every tag outside the eight members (such as `0x99`)
fails with a decode error. -/
theorem decode_frame_type_exhaustive :
    decodeFrameType 0x13 = .ok .heartbeat ∧
    decodeFrameType 0x1001 = .ok .txBlockNum ∧
    decodeFrameType 0x99 = .error "unrecognized frame type" ∧
    ∀ tag : Nat,
      tag ∉ [TYPE_RPC, TYPE_HEATBEAT, TYPE_AMOP_REQ, TYPE_AMOP_RESP, TYPE_TOPIC_REPORT,
             TYPE_TOPIC_MULTICAST, TYPE_TX_COMMITTED, TYPE_TX_BLOCKNUM] →
      decodeFrameType tag = .error "unrecognized frame type" := by
  refine ⟨rfl, rfl, rfl, ?_⟩
  intro tag h
  simp only [List.mem_cons, List.not_mem_nil, or_false, not_or,
    TYPE_RPC, TYPE_HEATBEAT, TYPE_AMOP_REQ, TYPE_AMOP_RESP, TYPE_TOPIC_REPORT,
    TYPE_TOPIC_MULTICAST, TYPE_TX_COMMITTED, TYPE_TX_BLOCKNUM] at h
  obtain ⟨n1, n2, n3, n4, n5, n6, n7, n8⟩ := h
  simp [decodeFrameType, TYPE_RPC, TYPE_HEATBEAT, TYPE_AMOP_REQ, TYPE_AMOP_RESP,
    TYPE_TOPIC_REPORT, TYPE_TOPIC_MULTICAST, TYPE_TX_COMMITTED, TYPE_TX_BLOCKNUM,
    n1, n2, n3, n4, n5, n6, n7, n8]

/-- Witness for C9 at the concrete unlisted tag `0x34`. -/
theorem decode_frame_type_exhaustive_witness :
    decodeFrameType 0x34 = .error "unrecognized frame type" :=
  decode_frame_type_exhaustive.2.2.2 0x34 (by decide)

/-! ## BlockNonce round-trip -/

/-- OR of a shifted value with a small value is their sum: the shifted
part occupies only bits at or above `k`, the small part only bits below. -/
theorem lor_shiftLeft_eq_add {a b k : Nat} (hb : b < 2 ^ k) :
    (a <<< k) ||| b = a <<< k + b := by
  apply Nat.eq_of_testBit_eq
  intro i
  have hrhs : (a <<< k + b).testBit i = if i < k then b.testBit i else a.testBit (i - k) := by
    rw [Nat.shiftLeft_eq, Nat.mul_comm]
    exact Nat.testBit_mul_pow_two_add a hb i
  rw [Nat.testBit_lor, Nat.testBit_shiftLeft, hrhs]
  by_cases hik : i < k
  · simp [hik, Nat.not_le.mpr hik]
  · have hk : k ≤ i := Nat.not_lt.mp hik
    have hbf : b.testBit i = false :=
      Nat.testBit_eq_false_of_lt (lt_of_lt_of_le hb (Nat.pow_le_pow_right (by omega) hk))
    simp [hik, hk, hbf]

/-- The small side on the left: `b ||| (a <<< k) = a <<< k + b`. -/
theorem lor_low {k : Nat} (a b : Nat) (hb : b < 2 ^ k) :
    b ||| a <<< k = a <<< k + b := by
  rw [Nat.lor_comm]
  exact lor_shiftLeft_eq_add hb

/-- C10: the 8-byte block nonce and its 64-bit integer view are big-endian
inverses: `Uint64` recovers any value below `2 ^ 64` from `EncodeNonce`,
and `EncodeNonce` rebuilds any well-formed 8-byte nonce from `Uint64`. -/
theorem encodeNonce_uint64_roundtrip :
    (∀ i : Nat, i < 2 ^ 64 → BlockNonce.Uint64 (EncodeNonce i) = i) ∧
    (∀ n : List Nat, n.length = 8 → (∀ b ∈ n, b < 256) →
      EncodeNonce (BlockNonce.Uint64 n) = n) := by
  constructor
  · intro i hi
    simp only [EncodeNonce, BlockNonce.Uint64, List.getD_eq_getElem?_getD,
      List.getElem?_cons_zero, List.getElem?_cons_succ, Option.getD_some]
    rw [lor_low (k := 8) _ _ (by simp [Nat.shiftRight_eq_div_pow]; omega)]
    rw [lor_low (k := 16) _ _ (by simp [Nat.shiftLeft_eq, Nat.shiftRight_eq_div_pow]; omega)]
    rw [lor_low (k := 24) _ _ (by simp [Nat.shiftLeft_eq, Nat.shiftRight_eq_div_pow]; omega)]
    rw [lor_low (k := 32) _ _ (by simp [Nat.shiftLeft_eq, Nat.shiftRight_eq_div_pow]; omega)]
    rw [lor_low (k := 40) _ _ (by simp [Nat.shiftLeft_eq, Nat.shiftRight_eq_div_pow]; omega)]
    rw [lor_low (k := 48) _ _ (by simp [Nat.shiftLeft_eq, Nat.shiftRight_eq_div_pow]; omega)]
    rw [lor_low (k := 56) _ _ (by simp [Nat.shiftLeft_eq, Nat.shiftRight_eq_div_pow]; omega)]
    simp only [Nat.shiftLeft_eq, Nat.shiftRight_eq_div_pow]
    omega
  · intro n hlen hb
    match n, hlen with
    | [b0, b1, b2, b3, b4, b5, b6, b7], _ =>
      have h0 : b0 < 256 := hb b0 (by simp)
      have h1 : b1 < 256 := hb b1 (by simp)
      have h2 : b2 < 256 := hb b2 (by simp)
      have h3 : b3 < 256 := hb b3 (by simp)
      have h4 : b4 < 256 := hb b4 (by simp)
      have h5 : b5 < 256 := hb b5 (by simp)
      have h6 : b6 < 256 := hb b6 (by simp)
      have h7 : b7 < 256 := hb b7 (by simp)
      simp only [BlockNonce.Uint64, EncodeNonce, List.getD_eq_getElem?_getD,
        List.getElem?_cons_zero, List.getElem?_cons_succ, Option.getD_some]
      rw [lor_low (k := 8) _ _ (by omega)]
      rw [lor_low (k := 16) _ _ (by simp [Nat.shiftLeft_eq]; omega)]
      rw [lor_low (k := 24) _ _ (by simp [Nat.shiftLeft_eq]; omega)]
      rw [lor_low (k := 32) _ _ (by simp [Nat.shiftLeft_eq]; omega)]
      rw [lor_low (k := 40) _ _ (by simp [Nat.shiftLeft_eq]; omega)]
      rw [lor_low (k := 48) _ _ (by simp [Nat.shiftLeft_eq]; omega)]
      rw [lor_low (k := 56) _ _ (by simp [Nat.shiftLeft_eq]; omega)]
      simp only [Nat.shiftLeft_eq, Nat.shiftRight_eq_div_pow, List.cons.injEq, and_true]
      omega

/-- Witness for C10 at a concrete 64-bit value and a concrete nonce. -/
theorem encodeNonce_uint64_roundtrip_witness :
    BlockNonce.Uint64 (EncodeNonce 0x0102030405060708) = 0x0102030405060708 ∧
    EncodeNonce (BlockNonce.Uint64 [1, 2, 3, 4, 5, 6, 7, 8]) = [1, 2, 3, 4, 5, 6, 7, 8] :=
  ⟨encodeNonce_uint64_roundtrip.1 0x0102030405060708 (by decide),
   encodeNonce_uint64_roundtrip.2 [1, 2, 3, 4, 5, 6, 7, 8] (by decide) (by decide)⟩

/-! ## Header identity -/

/-- C1: header identity is deterministic and structurally defined: two
headers whose fifteen fields are pairwise equal have the same `Hash`, and
the hash is the legacy Keccak-256 digest of the RLP encoding of the
fields in declaration order. -/
theorem header_hash_deterministic (h1 h2 : Header)
    (e1 : h1.ParentHash = h2.ParentHash) (e2 : h1.UncleHash = h2.UncleHash)
    (e3 : h1.Coinbase = h2.Coinbase) (e4 : h1.Root = h2.Root)
    (e5 : h1.TxHash = h2.TxHash) (e6 : h1.ReceiptHash = h2.ReceiptHash)
    (e7 : h1.Bloom = h2.Bloom) (e8 : h1.Difficulty = h2.Difficulty)
    (e9 : h1.Number = h2.Number) (e10 : h1.GasLimit = h2.GasLimit)
    (e11 : h1.GasUsed = h2.GasUsed) (e12 : h1.Time = h2.Time)
    (e13 : h1.Extra = h2.Extra) (e14 : h1.MixDigest = h2.MixDigest)
    (e15 : h1.RandomId = h2.RandomId) :
    h1.Hash = h2.Hash ∧ h1.Hash = keccak256 (headerRLP h1) := by
  have hh : h1 = h2 := by
    cases h1
    cases h2
    congr 1
  exact ⟨by rw [hh], rfl⟩

/-- Witness for C1 at the all-zero header. -/
theorem header_hash_deterministic_witness :
    Header.Hash zeroHeader = Header.Hash zeroHeader ∧
    Header.Hash zeroHeader = keccak256 (headerRLP zeroHeader) :=
  header_hash_deterministic zeroHeader zeroHeader
    rfl rfl rfl rfl rfl rfl rfl rfl rfl rfl rfl rfl rfl rfl rfl

/-! ## The content hasher is the legacy Keccak-256, not NIST SHA3-256 -/

set_option maxRecDepth 100000 in
/-- C2: the content hasher behind header identity returns a 32-byte digest
for every input and uses the original pre-NIST Keccak-256 padding: on the
empty input it produces the well-known legacy digest
`c5d246...85a470`, whereas the NIST SHA3-256 padding (`0x06`) produces the
different digest `a7ffc6...f8434a`; `Header.Hash` feeds the RLP bytes to
exactly this legacy hasher. -/
theorem rlpHash_uses_legacy_keccak :
    (∀ bs : List Nat, (keccak256 bs).length = 32) ∧
    keccak256 [] = [0xc5, 0xd2, 0x46, 0x01, 0x86, 0xf7, 0x23, 0x3c,
                    0x92, 0x7e, 0x7d, 0xb2, 0xdc, 0xc7, 0x03, 0xc0,
                    0xe5, 0x00, 0xb6, 0x53, 0xca, 0x82, 0x27, 0x3b,
                    0x7b, 0xfa, 0xd8, 0x04, 0x5d, 0x85, 0xa4, 0x70] ∧
    sha3Nist256 [] = [0xa7, 0xff, 0xc6, 0xf8, 0xbf, 0x1e, 0xd7, 0x66,
                      0x51, 0xc1, 0x47, 0x56, 0xa0, 0x61, 0xd6, 0x62,
                      0xf5, 0x80, 0xff, 0x4d, 0xe4, 0x3b, 0x49, 0xfa,
                      0x82, 0xd8, 0x0a, 0x4b, 0x80, 0xf8, 0x43, 0x4a] ∧
    keccak256 [] ≠ sha3Nist256 [] ∧
    ∀ h : Header, Header.Hash h = keccak256 (headerRLP h) := by
  have e1 : keccak256 [] = [0xc5, 0xd2, 0x46, 0x01, 0x86, 0xf7, 0x23, 0x3c,
      0x92, 0x7e, 0x7d, 0xb2, 0xdc, 0xc7, 0x03, 0xc0,
      0xe5, 0x00, 0xb6, 0x53, 0xca, 0x82, 0x27, 0x3b,
      0x7b, 0xfa, 0xd8, 0x04, 0x5d, 0x85, 0xa4, 0x70] := by decide
  have e2 : sha3Nist256 [] = [0xa7, 0xff, 0xc6, 0xf8, 0xbf, 0x1e, 0xd7, 0x66,
      0x51, 0xc1, 0x47, 0x56, 0xa0, 0x61, 0xd6, 0x62,
      0xf5, 0x80, 0xff, 0x4d, 0xe4, 0x3b, 0x49, 0xfa,
      0x82, 0xd8, 0x0a, 0x4b, 0x80, 0xf8, 0x43, 0x4a] := by decide
  refine ⟨?_, e1, e2, by rw [e1, e2]; decide, fun h => rfl⟩
  intro bs
  simp [keccak256, keccakHash]

/-! ## Sequence generation round-trip -/

/-- Upper-casing a lowercase hexadecimal digit character and reading it
back recovers the digit value. -/
theorem hexVal_toUpperChar_hexChar :
    ∀ d : Fin 16, hexVal (toUpperChar (hexChar d.val)) = some d.val := by decide

/-- A hexadecimal digit character is never the dash separator. -/
theorem hexChar_ne_dash : ∀ d : Fin 16, (hexChar d.val != '-') = true := by decide

/-- Decoding the upper-cased hexadecimal text of a byte sequence recovers
the bytes. -/
theorem hexPairs_bytesToHex (u : List Nat) (hu : ∀ b ∈ u, b < 256) :
    hexPairs ((bytesToHex u).map toUpperChar) = some u := by
  induction u with
  | nil => simp [bytesToHex, hexPairs]
  | cons b t ih =>
    have hb : b < 256 := hu b (by simp)
    have hd1 : b / 16 < 16 := by omega
    have hd2 : b % 16 < 16 := by omega
    have e1 : hexVal (toUpperChar (hexChar (b / 16))) = some (b / 16) :=
      hexVal_toUpperChar_hexChar ⟨b / 16, hd1⟩
    have e2 : hexVal (toUpperChar (hexChar (b % 16))) = some (b % 16) :=
      hexVal_toUpperChar_hexChar ⟨b % 16, hd2⟩
    have iht := ih fun x hx => hu x (List.mem_cons_of_mem b hx)
    have hval : 16 * (b / 16) + b % 16 = b := by omega
    simp [bytesToHex, hexPairs, e1, e2, iht, hval]

/-- Splitting on dashes never returns the empty list of pieces. -/
theorem splitDash_ne_nil (s : List Char) : splitDash s ≠ [] := by
  induction s with
  | nil => simp [splitDash]
  | cons c t ih =>
    by_cases hc : c = '-'
    · simp [splitDash, hc]
    · cases hsp : splitDash t with
      | nil => exact absurd hsp ih
      | cons h r => simp [splitDash, hc, hsp]

/-- Concatenating the pieces of `splitDash` removes exactly the dashes. -/
theorem flatten_splitDash (s : List Char) :
    (splitDash s).flatten = s.filter (fun c => c != '-') := by
  induction s with
  | nil => simp [splitDash]
  | cons c t ih =>
    by_cases hc : c = '-'
    · subst hc
      simp [splitDash, ih]
    · cases hsp : splitDash t with
      | nil => exact absurd hsp (splitDash_ne_nil t)
      | cons hd r =>
        have ih' : hd ++ r.flatten = t.filter (fun c => c != '-') := by
          simpa [hsp] using ih
        simp [splitDash, hc, hsp, ih']

/-- The hexadecimal text of a byte sequence contains no dash. -/
theorem filter_bytesToHex (u : List Nat) (hu : ∀ b ∈ u, b < 256) :
    (bytesToHex u).filter (fun c => c != '-') = bytesToHex u := by
  induction u with
  | nil => simp [bytesToHex]
  | cons b t ih =>
    have hb : b < 256 := hu b (by simp)
    have e1 : (hexChar (b / 16) != '-') = true := hexChar_ne_dash ⟨b / 16, by omega⟩
    have e2 : (hexChar (b % 16) != '-') = true := hexChar_ne_dash ⟨b % 16, by omega⟩
    have iht := ih fun x hx => hu x (List.mem_cons_of_mem b hx)
    simp [bytesToHex, List.filter_cons, e1, e2, iht]

/-- Hexadecimal text formation distributes over concatenation. -/
theorem bytesToHex_append (a b : List Nat) :
    bytesToHex (a ++ b) = bytesToHex a ++ bytesToHex b := by
  induction a with
  | nil => simp [bytesToHex]
  | cons x t ih => simp [bytesToHex, ih]

/-- The five byte slices of the dashed UUID text reassemble the UUID. -/
theorem uuid_slices (u : List Nat) :
    u.take 4 ++ ((u.drop 4).take 2 ++ ((u.drop 6).take 2 ++
      ((u.drop 8).take 2 ++ u.drop 10))) = u := by
  have s8 : (u.drop 8).take 2 ++ u.drop 10 = u.drop 8 := by
    have h : (u.drop 8).drop 2 = u.drop 10 := by simp [List.drop_drop]
    rw [← h, List.take_append_drop]
  have s6 : (u.drop 6).take 2 ++ u.drop 8 = u.drop 6 := by
    have h : (u.drop 6).drop 2 = u.drop 8 := by simp [List.drop_drop]
    rw [← h, List.take_append_drop]
  have s4 : (u.drop 4).take 2 ++ u.drop 6 = u.drop 4 := by
    have h : (u.drop 4).drop 2 = u.drop 6 := by simp [List.drop_drop]
    rw [← h, List.take_append_drop]
  rw [s8, s6, s4, List.take_append_drop]

/-- Filtering the dashes out of the dashed UUID text leaves exactly the
plain hexadecimal text of the UUID bytes. -/
theorem filter_uuidString (u : List Nat) (hu : ∀ b ∈ u, b < 256) :
    (uuidString u).filter (fun c => c != '-') = bytesToHex u := by
  have f4 := filter_bytesToHex (u.take 4) fun b hb => hu b (List.mem_of_mem_take hb)
  have f42 := filter_bytesToHex ((u.drop 4).take 2) fun b hb =>
    hu b (List.mem_of_mem_drop (List.mem_of_mem_take hb))
  have f62 := filter_bytesToHex ((u.drop 6).take 2) fun b hb =>
    hu b (List.mem_of_mem_drop (List.mem_of_mem_take hb))
  have f82 := filter_bytesToHex ((u.drop 8).take 2) fun b hb =>
    hu b (List.mem_of_mem_drop (List.mem_of_mem_take hb))
  have f10 := filter_bytesToHex (u.drop 10) fun b hb => hu b (List.mem_of_mem_drop hb)
  unfold uuidString
  simp only [List.filter_append, List.filter_cons]
  norm_num
  rw [f4, f42, f62, f82, f10]
  rw [← bytesToHex_append, ← bytesToHex_append, ← bytesToHex_append, ← bytesToHex_append]
  rw [uuid_slices]

/-- Every byte of a version-4 UUID built from in-range source bytes is in
range. -/
theorem newRandomUUID_bytes (r : List Nat) (hr : ∀ b ∈ r, b < 256) :
    ∀ b ∈ newRandomUUID r, b < 256 := by
  intro b hb
  unfold newRandomUUID at hb
  rcases List.mem_or_eq_of_mem_set hb with hb8 | rfl
  · rcases List.mem_or_eq_of_mem_set hb8 with hb6 | rfl
    · exact hr b hb6
    · omega
  · omega

/-- On a working source `GenMsgSeq` returns exactly the raw bytes of the
freshly built version-4 UUID: the dashed textual formatting is stripped
away by the split-concatenate-uppercase-decode pipeline. -/
theorem genMsgSeq_ok (r : List Nat) (hr : ∀ b ∈ r, b < 256) :
    GenMsgSeq (some r) = .ok (newRandomUUID r) := by
  have hvb : ∀ b ∈ newRandomUUID r, b < 256 := newRandomUUID_bytes r hr
  have t0 : toUpperChar '0' = '0' := by decide
  have tX : toUpperChar 'X' = 'X' := by decide
  show hexDecode ((('0' :: 'X' :: (splitDash (uuidString (newRandomUUID r))).flatten).map
    toUpperChar)) = _
  rw [flatten_splitDash, filter_uuidString _ hvb]
  simp only [List.map_cons, t0, tX]
  simp [hexDecode, hexPairs_bytesToHex _ hvb]

/-- C6: on every successful call `GenMsgSeq` returns exactly 16 raw bytes
— the bytes of the generated UUID with all textual formatting (dashes,
hex text) stripped. -/
theorem genMsgSeq_sixteen_raw_bytes (r : List Nat) (hlen : r.length = 16)
    (hr : ∀ b ∈ r, b < 256) :
    GenMsgSeq (some r) = .ok (newRandomUUID r) ∧ (newRandomUUID r).length = 16 :=
  ⟨genMsgSeq_ok r hr, by simp [newRandomUUID, hlen]⟩

/-- Witness for C6 at the concrete source bytes 0..15. -/
theorem genMsgSeq_sixteen_raw_bytes_witness :
    GenMsgSeq (some (List.range 16)) = .ok (newRandomUUID (List.range 16)) ∧
    (newRandomUUID (List.range 16)).length = 16 :=
  genMsgSeq_sixteen_raw_bytes (List.range 16) (by decide) (by decide)

/-- C7: a generated correlation sequence is never the reserved all-zero
sequence (the version nibble `0x4` forced into byte 6 makes it nonzero),
and a failing unique-identifier source surfaces as an error instead of
silently yielding the zero sequence. -/
theorem genMsgSeq_never_zero_and_fails_loud :
    (∀ r : List Nat, r.length = 16 → (∀ b ∈ r, b < 256) →
      ∃ out, GenMsgSeq (some r) = .ok out ∧ out ≠ List.replicate 16 0) ∧
    GenMsgSeq none = .error "uuid generation failed" := by
  refine ⟨fun r hlen hr => ⟨newRandomUUID r, genMsgSeq_ok r hr, ?_⟩, rfl⟩
  intro hz
  have hlen' : (r.set 6 (r.getD 6 0 % 16 + 0x40)).length = 16 := by
    simp [List.length_set, hlen]
  have h6 : (newRandomUUID r).getD 6 0 = r.getD 6 0 % 16 + 0x40 := by
    unfold newRandomUUID
    rw [List.getD_eq_getElem?_getD, List.getElem?_set_ne (by omega),
      List.getElem?_set_self (by omega)]
    rfl
  have hz6 := congrArg (fun l => l.getD 6 0) hz
  simp only [h6] at hz6
  have : (List.replicate 16 (0 : Nat)).getD 6 0 = 0 := by decide
  omega

/-- Witness for C7 at the all-zero source bytes. -/
theorem genMsgSeq_never_zero_and_fails_loud_witness :
    ∃ out, GenMsgSeq (some (List.replicate 16 0)) = .ok out ∧ out ≠ List.replicate 16 0 :=
  genMsgSeq_never_zero_and_fails_loud.1 (List.replicate 16 0) (by decide) (by decide)

/-! ## RLP decoding round-trips and injectivity on the header shape -/

/-- Parsing the string encoding of any byte sequence consumes exactly the
encoding and returns the payload, whatever follows. -/
theorem parseStr_rlpStr (s rest : List Nat) :
    parseStr (rlpStr s ++ rest) = some (s, rest) := by
  unfold rlpStr
  by_cases h1 : s.length = 1 ∧ s.headD 0 < 0x80
  · obtain ⟨hl, hh⟩ := h1
    cases s with
    | nil => simp at hl
    | cons b t =>
      cases t with
      | nil =>
        simp only [List.headD] at hh
        simp [parseStr, hh]
      | cons c u => simp at hl
  · rw [if_neg h1]
    by_cases h2 : s.length < 56
    · rw [if_pos h2]
      show parseStr ((0x80 + s.length) :: (s ++ rest)) = _
      simp only [parseStr]
      have c1 : ¬ (0x80 + s.length < 0x80) := by omega
      have c2 : 0x80 + s.length ≤ 0xb7 := by omega
      rw [if_neg c1, if_pos c2]
      have he : 0x80 + s.length - 0x80 = s.length := by omega
      rw [he, List.take_left, List.drop_left]
    · rw [if_neg h2]
      have hpos : 0 < s.length := by omega
      have hne : beBytes s.length ≠ [] := beBytes_ne_nil hpos
      have hL : 1 ≤ (beBytes s.length).length := List.length_pos.mpr hne
      show parseStr ((0xb7 + (beBytes s.length).length) :: (beBytes s.length ++ s ++ rest)) = _
      simp only [parseStr]
      have c1 : ¬ (0xb7 + (beBytes s.length).length < 0x80) := by omega
      have c2 : ¬ (0xb7 + (beBytes s.length).length ≤ 0xb7) := by omega
      rw [if_neg c1, if_neg c2]
      have he : 0xb7 + (beBytes s.length).length - 0xb7 = (beBytes s.length).length := by omega
      rw [he, List.append_assoc, List.take_left, List.drop_left, beVal_beBytes,
        List.take_left, List.drop_left]

/-- Parsing the list encoding of any payload consumes exactly the
encoding and returns the payload, whatever follows. -/
theorem parseLst_rlpList (p rest : List Nat) :
    parseLst (rlpList p ++ rest) = some (p, rest) := by
  unfold rlpList
  by_cases h2 : p.length < 56
  · rw [if_pos h2]
    show parseLst ((0xc0 + p.length) :: (p ++ rest)) = _
    simp only [parseLst]
    have c1 : ¬ (0xc0 + p.length < 0xc0) := by omega
    have c2 : 0xc0 + p.length ≤ 0xf7 := by omega
    rw [if_neg c1, if_pos c2]
    have he : 0xc0 + p.length - 0xc0 = p.length := by omega
    rw [he, List.take_left, List.drop_left]
  · rw [if_neg h2]
    have hpos : 0 < p.length := by omega
    have hne : beBytes p.length ≠ [] := beBytes_ne_nil hpos
    have hL : 1 ≤ (beBytes p.length).length := List.length_pos.mpr hne
    show parseLst ((0xf7 + (beBytes p.length).length) :: (beBytes p.length ++ p ++ rest)) = _
    simp only [parseLst]
    have c1 : ¬ (0xf7 + (beBytes p.length).length < 0xc0) := by omega
    have c2 : ¬ (0xf7 + (beBytes p.length).length ≤ 0xf7) := by omega
    rw [if_neg c1, if_neg c2]
    have he : 0xf7 + (beBytes p.length).length - 0xf7 = (beBytes p.length).length := by omega
    rw [he, List.append_assoc, List.take_left, List.drop_left, beVal_beBytes,
      List.take_left, List.drop_left]

/-- Parsing back the concatenated string encodings of a field sequence
recovers every field payload in order. -/
theorem parseFields_encCat (l : List (List Nat)) (rest : List Nat) :
    parseFields l.length (encCat l ++ rest) = some (l, rest) := by
  induction l generalizing rest with
  | nil => simp [parseFields, encCat]
  | cons s t ih =>
    show parseFields (t.length + 1) (rlpStr s ++ encCat t ++ rest) = _
    rw [List.append_assoc]
    simp [parseFields, parseStr_rlpStr, ih]

/-- C4: the canonical encoding is injective on the fixed header shape: two
headers with the same RLP encoding are equal, so any difference in any
field — in particular swapping two fields holding distinct values —
changes the encoded bytes. -/
theorem headerRLP_injective (h1 h2 : Header) (he : headerRLP h1 = headerRLP h2) :
    h1 = h2 := by
  have hp : encCat (headerFields h1) = encCat (headerFields h2) := by
    have p1 : parseLst (headerRLP h1) = some (encCat (headerFields h1), []) := by
      have := parseLst_rlpList (encCat (headerFields h1)) []
      simpa [headerRLP] using this
    have p2 : parseLst (headerRLP h2) = some (encCat (headerFields h2), []) := by
      have := parseLst_rlpList (encCat (headerFields h2)) []
      simpa [headerRLP] using this
    rw [he, p2] at p1
    simpa using p1.symm
  have hf : headerFields h1 = headerFields h2 := by
    have q1 : parseFields 15 (encCat (headerFields h1)) = some (headerFields h1, []) := by
      have := parseFields_encCat (headerFields h1) []
      simpa [headerFields] using this
    have q2 : parseFields 15 (encCat (headerFields h2)) = some (headerFields h2, []) := by
      have := parseFields_encCat (headerFields h2) []
      simpa [headerFields] using this
    rw [hp, q2] at q1
    simpa using q1.symm
  cases h1
  cases h2
  simp only [headerFields, List.cons.injEq, and_true] at hf
  obtain ⟨q1, q2, q3, q4, q5, q6, q7, q8, q9, q10, q11, q12, q13, q14, q15⟩ := hf
  simp only [Header.mk.injEq]
  exact ⟨q1, q2, q3, q4, q5, q6, q7, beBytes_inj q8, beBytes_inj q9, beBytes_inj q10,
    beBytes_inj q11, beBytes_inj q12, q13, q14, q15⟩

/-- Witness for C4 at the all-zero header. -/
theorem headerRLP_injective_witness : zeroHeader = zeroHeader :=
  headerRLP_injective zeroHeader zeroHeader rfl
